import Mathlib

/-!
Verification of the cdk-ecr-asset-cleaner reconciliation and deletion logic.

The Go program collects three inventories (all ECR images, images used by
ECS task definitions, images used by container-packaged Lambda functions),
reconciles them by exact string comparison of image URIs, and, when not in
dry-run mode, batch-deletes the unused tags 100 at a time.

The embedding below translates the pure data flow of `run`, `getAllImages`,
`getRepositoryImages`, `getClusterServices` and `getInUseImagesLambda` from
the source.  Network calls are the boundary: paginated listings become lists
of `Except`-valued pages, the `BatchDeleteImage` call becomes an oracle
`String → List String → Option String` (`none` = success, `some msg` = the
collaborator error), and the per-function `GetFunction` call becomes an
oracle `String → Except String String`.  Go's `map[string]struct{}` key sets
become `List String` with `contains` (Go map lookup is exact string
equality, as is `List.contains` on `String`).  Go iterates `repoNames` in
unspecified map order; the embedding fixes the order of first insertion —
none of the proved claims depends on the cross-repository order.
-/

set_option linter.unusedVariables false

/-- A registry repository, from the Go struct `repo` (URI and name). -/
structure repo where
  URI : String
  Name : String
deriving DecidableEq

/-- One tagged image of one repository, from the Go struct `image`:
the owning repository, the full URI (`repo.URI ++ ":" ++ tag`, as synthesized
by `getAllImages`) and the tag. -/
structure image where
  Repo : repo
  URI : String
  Tag : String
deriving DecidableEq

/-- An in-use reference reported by the ECS collector, from the Go struct
`inUseImageECS`. -/
structure inUseImageECS where
  ImageName : String
  Image : String
deriving DecidableEq

/-- An in-use reference reported by the Lambda collector, from the Go struct
`inUseImageLambda`. -/
structure inUseImageLambda where
  FunctionName : String
  Container : String
deriving DecidableEq

/-- Modelled from the spec: the external `github.com/a-h/pager` library's
`Channel`/`New` function (its source is not part of this repository), which
"partitions the list into consecutive batches of at most" the page size —
the code comment reads "Run 100 tags at a time".  Fuel-structured recursion
(the fuel is the list length at the call site) so that it computes by kernel
reduction; for every positive page size the fuel `l.length` is sufficient. -/
def pager.ChannelAux : Nat → List α → Nat → List (List α)
  | 0, _, _ => []
  | _ + 1, [], _ => []
  | fuel + 1, x :: xs, n => (x :: xs).take n :: pager.ChannelAux fuel ((x :: xs).drop n) n

/-- Modelled from the spec: `pager.Channel(slice, size)` — the pages of
`l`, each of at most `n` elements, in input order. -/
def pager.Channel (l : List α) (n : Nat) : List (List α) :=
  pager.ChannelAux l.length l n

/-- The Usage Set as `run` builds it (lines 63–73 of the source): first every
ECS container image reference, then every Lambda container image reference.
The Go code inserts them as keys of `inUseImagesByContainerMap`; membership
in that map is exact string equality, embedded as `List.contains`. -/
def usageOf (E : List inUseImageECS) (L : List inUseImageLambda) : List String :=
  E.map (fun i => i.Image) ++ L.map (fun i => i.Container)

/-- The reconciliation loop of `run` (lines 79–86): an image is kept as
unused exactly when its URI is not a key of the usage map. -/
def unusedImages (A : List image) (usage : List String) : List image :=
  A.filter (fun img => !(usage.contains img.URI))

/-- Adding one repository name to the (insertion-ordered) key list of the Go
map `repoNames`. -/
def insertName (acc : List String) (s : String) : List String :=
  if acc.contains s then acc else acc ++ [s]

/-- The keys of the Go map `repoNames`, in order of first insertion during
the reconciliation loop.  (Go map iteration order is unspecified; the claims
proved below do not depend on it.) -/
def repoNamesOf (unused : List image) : List String :=
  unused.foldl (fun acc img => insertName acc img.Repo.Name) []

/-- The per-repository unused list `unusedImagesByRepoName[r]`: the Go loop
appends each unused image to its repository's slice in scan order, which is
exactly the order-preserving filter of the unused list by repository name. -/
def unusedByRepo (unused : List image) (r : String) : List image :=
  unused.filter (fun img => img.Repo.Name == r)

/-- Lines 103–106 of `run`: a failing delete call's error is wrapped as
"failed to delete image tags"; a successful call leaves `err = nil`. -/
def wrapDeleteErr (o : Option String) : Option String :=
  o.map (fun m => "failed to delete image tags: " ++ m)

/-- The inner batch loop of `run` (lines 101–107) for one repository: each
batch is handed to `deleteImages` (the oracle) and the single `err` variable
is overwritten with that call's wrapped outcome; the list of issued calls is
accumulated. -/
def deleteRepoBatches (oracle : String → List String → Option String) (r : String)
    (batches : List (List String)) (st : Option String × List (String × List String)) :
    Option String × List (String × List String) :=
  batches.foldl (fun st b => (wrapDeleteErr (oracle r b), st.2 ++ [(r, b)])) st

/-- The deletion phase of `run` (lines 90–108): iterate the repository
names, skip a repository with an empty unused list, batch the repository's
tags 100 at a time and run the inner loop, threading the one `err` variable
and collecting every issued `BatchDeleteImage` call. -/
def deletePhase (oracle : String → List String → Option String) (unused : List image) :
    Option String × List (String × List String) :=
  (repoNamesOf unused).foldl
    (fun st r =>
      let imgs := unusedByRepo unused r
      if imgs.isEmpty then st
      else deleteRepoBatches oracle r (pager.Channel (imgs.map (fun i => i.Tag)) 100) st)
    (none, [])

/-- The non-nil collector errors in the order `multierr.Combine` receives
them (line 58): registry inventory, ECS usage, Lambda usage. -/
def errorsOf (a : Except String (List image)) (e : Except String (List inUseImageECS))
    (l : Except String (List inUseImageLambda)) : List String :=
  (match a with | .error m => [m] | .ok _ => []) ++
    (match e with | .error m => [m] | .ok _ => []) ++
      (match l with | .error m => [m] | .ok _ => [])

/-- What one execution of `run` yields: the returned error, the unused list
computed by reconciliation, every `BatchDeleteImage` call issued (repository
name and tag batch, in issue order) and the final "Deleted N unused images."
summary line (printed only in non-dry-run mode). -/
structure RunResult where
  err : Option String
  unused : List image
  deleteCalls : List (String × List String)
  summary : Option String
deriving DecidableEq

/-- The default of the `-dryrun` flag (line 20 of the source): `true`. -/
def flagDryRunDefault : Bool := true

/-- The driver `run` (lines 32–115), from the collector join onwards.  The
three collector outcomes arrive as `Except` values (the collectors
themselves are embedded separately below); `multierr.Combine` of the three
error slots is modelled by `errorsOf` joined with "; " (multierr's message
separator), and a combined error returns before reconciliation.  Otherwise
the usage map is built, the unused list computed, and — only when `dryRun`
is false — the deletion phase runs and the summary line is produced with the
total reconciliation count `unusedImageCount`. -/
def run (dryRun : Bool) (a : Except String (List image))
    (e : Except String (List inUseImageECS)) (l : Except String (List inUseImageLambda))
    (oracle : String → List String → Option String) : RunResult :=
  match a, e, l with
  | .ok A, .ok E, .ok L =>
    let usage := usageOf E L
    let unused := unusedImages A usage
    if dryRun then ⟨none, unused, [], none⟩
    else
      let st := deletePhase oracle unused
      ⟨st.1, unused, st.2, some ("Deleted " ++ toString unused.length ++ " unused images.")⟩
  | _, _, _ => ⟨some (String.intercalate "; " (errorsOf a e l)), [], [], none⟩

/-- The records a successfully fetched page contributes; an error page
contributes nothing (used only to state success-case theorems). -/
def pageContent (extract : β → List α) : Except String β → List α
  | .ok v => extract v
  | .error _ => []

/-- The paginated-fetcher pattern shared by every listing function in the
source: fetch pages in order, append each page's extracted records to the
accumulator, and on the first failing page return that error wrapped with
the function's fixed message — the accumulated records are discarded. -/
def fetchPagesAux (wrap : String) (extract : β → List α) :
    List (Except String β) → List α → Except String (List α)
  | [], acc => .ok acc
  | p :: ps, acc =>
    match p with
    | .error e => .error (wrap ++ ": " ++ e)
    | .ok page => fetchPagesAux wrap extract ps (acc ++ extract page)

/-- `getRepositoryImages` (lines 187–205): list a repository's image
identifiers page by page, keep only identifiers that carry a tag
(`id.ImageTag != nil`, embedded as `Option String`), and wrap a page error
as "failed to list tasks" — the message in the source, verbatim. -/
def getRepositoryImages (pages : List (Except String (List (Option String)))) :
    Except String (List String) :=
  fetchPagesAux "failed to list tasks" (fun ids => ids.filterMap id) pages []

/-- `getClusterServices` (src/main.go lines 258–272): list a cluster's
service ARNs page by page; a page error is wrapped as "failed to list
clusters" — the message in the source, verbatim. -/
def getClusterServices (pages : List (Except String (List String))) :
    Except String (List String) :=
  fetchPagesAux "failed to list clusters" id pages []

/-- The image `getAllImages` synthesizes for one tag of one repository
(lines 154–160): URI is the repository URI, a colon, and the tag. -/
def mkImage (rp : repo) (t : String) : image :=
  { Repo := rp, URI := rp.URI ++ ":" ++ t, Tag := t }

/-- The repository loop of `getAllImages` (lines 147–161): repositories in
listing order, each repository's tag listing fetched via
`getRepositoryImages` (its pages are the repository's second component), a
tag-listing error wrapped as "failed to describe repositories" (the
message in the source) and aborting the whole collector, each tag mapped to
its synthesized image in tag order. -/
def getAllImagesAux :
    List (repo × List (Except String (List (Option String)))) → List image →
      Except String (List image)
  | [], acc => .ok acc
  | rp :: rest, acc =>
    match getRepositoryImages rp.2 with
    | .error e => .error ("failed to describe repositories: " ++ e)
    | .ok tags => getAllImagesAux rest (acc ++ tags.map (mkImage rp.1))

/-- `getAllImages` (lines 137–164), given the repository listing and each
repository's tag-listing pages. -/
def getAllImages (rs : List (repo × List (Except String (List (Option String))))) :
    Except String (List image) :=
  getAllImagesAux rs []

/-- One entry of a Lambda `ListFunctions` page: function name and deployment
package type (`f.PackageType`, a string-valued enum in the SDK). -/
structure lambdaFunction where
  FunctionName : String
  PackageType : String
deriving DecidableEq

/-- The per-page function loop of `getInUseImagesLambda` (lines 258–274):
skip functions whose package type is not "Image" without calling
`GetFunction`; for an "Image" function call `GetFunction` (the oracle), on
failure abort with the error wrapped exactly as the source's
`fmt.Errorf("failed to get function %q: %w", ...)`, on success append the
in-use reference.  Alongside the result, the names passed to `GetFunction`
are recorded in call order. -/
def processFunctions (getFunction : String → Except String String) :
    List lambdaFunction → List inUseImageLambda → List String →
      Except String (List inUseImageLambda) × List String
  | [], acc, calls => (.ok acc, calls)
  | f :: fs, acc, calls =>
    if f.PackageType == "Image" then
      match getFunction f.FunctionName with
      | .error e =>
        (.error ("failed to get function \"" ++ f.FunctionName ++ "\": " ++ e),
          calls ++ [f.FunctionName])
      | .ok uri =>
        processFunctions getFunction fs (acc ++ [⟨f.FunctionName, uri⟩])
          (calls ++ [f.FunctionName])
    else processFunctions getFunction fs acc calls

/-- The page loop of `getInUseImagesLambda` (lines 250–275): a failing page
fetch is wrapped as "failed to list functions"; a successful page's
functions are processed in order, an in-page failure aborting the whole
collector. -/
def getInUseImagesLambdaAux (getFunction : String → Except String String) :
    List (Except String (List lambdaFunction)) → List inUseImageLambda → List String →
      Except String (List inUseImageLambda) × List String
  | [], acc, calls => (.ok acc, calls)
  | p :: ps, acc, calls =>
    match p with
    | .error e => (.error ("failed to list functions: " ++ e), calls)
    | .ok fs =>
      match processFunctions getFunction fs acc calls with
      | (.ok acc2, calls2) => getInUseImagesLambdaAux getFunction ps acc2 calls2
      | (.error m, calls2) => (.error m, calls2)

/-- `getInUseImagesLambda` (lines 247–278): the collector's outcome together
with the `GetFunction` calls it made. -/
def getInUseImagesLambda (getFunction : String → Except String String)
    (pages : List (Except String (List lambdaFunction))) :
    Except String (List inUseImageLambda) × List String :=
  getInUseImagesLambdaAux getFunction pages [] []

/-! ## Helper lemmas about the pager's batch partitioning -/

/-- Joining the pages gives back the input list (positive page size,
sufficient fuel). -/
theorem pager.ChannelAux_flatten {α : Type} (n : Nat) (hn : 0 < n) :
    ∀ (fuel : Nat) (l : List α), l.length ≤ fuel →
      (pager.ChannelAux fuel l n).flatten = l := by
  intro fuel
  induction fuel with
  | zero =>
    intro l h
    cases l with
    | nil => rfl
    | cons x xs => simp at h
  | succ f ih =>
    intro l h
    cases l with
    | nil => rfl
    | cons x xs =>
      show ((x :: xs).take n :: pager.ChannelAux f ((x :: xs).drop n) n).flatten = x :: xs
      rw [List.flatten_cons, ih ((x :: xs).drop n) (by simp [List.length_drop] at h ⊢; omega),
        List.take_append_drop]

/-- Every page has at most `n` elements. -/
theorem pager.ChannelAux_mem_length {α : Type} (n : Nat) :
    ∀ (fuel : Nat) (l : List α) (b : List α), b ∈ pager.ChannelAux fuel l n → b.length ≤ n := by
  intro fuel
  induction fuel with
  | zero => intro l b hb; simp [pager.ChannelAux] at hb
  | succ f ih =>
    intro l b hb
    cases l with
    | nil => simp [pager.ChannelAux] at hb
    | cons x xs =>
      simp only [pager.ChannelAux, List.mem_cons] at hb
      rcases hb with rfl | hb
      · rw [List.length_take]; omega
      · exact ih _ _ hb

/-- The page sizes, as a function of the input length alone: fuel-structured
companion of `pager.ChannelAux` on lengths. -/
def chunkSizesAux : Nat → Nat → Nat → List Nat
  | 0, _, _ => []
  | _ + 1, _, 0 => []
  | fuel + 1, n, m + 1 => min n (m + 1) :: chunkSizesAux fuel n (m + 1 - n)

/-- The page lengths of `pager.ChannelAux` depend only on the input length. -/
theorem pager.ChannelAux_map_length {α : Type} (n : Nat) (hn : 0 < n) :
    ∀ (fuel : Nat) (l : List α), l.length ≤ fuel →
      (pager.ChannelAux fuel l n).map List.length = chunkSizesAux fuel n l.length := by
  intro fuel
  induction fuel with
  | zero =>
    intro l h
    cases l with
    | nil => rfl
    | cons x xs => simp at h
  | succ f ih =>
    intro l h
    cases l with
    | nil => rfl
    | cons x xs =>
      show List.length ((x :: xs).take n) ::
          (pager.ChannelAux f ((x :: xs).drop n) n).map List.length
        = chunkSizesAux (f + 1) n (x :: xs).length
      rw [ih ((x :: xs).drop n) (by simp [List.length_drop] at h ⊢; omega)]
      simp [chunkSizesAux, List.length_take, List.length_drop]

/-- The number of pages is the ceiling of length over page size. -/
theorem chunkSizesAux_length (n : Nat) (hn : 0 < n) :
    ∀ (fuel m : Nat), m ≤ fuel → (chunkSizesAux fuel n m).length = (m + n - 1) / n := by
  intro fuel
  induction fuel with
  | zero =>
    intro m h
    have hm : m = 0 := Nat.le_zero.mp h
    subst hm
    simp only [chunkSizesAux, List.length_nil]
    exact (Nat.div_eq_of_lt (by omega)).symm
  | succ f ih =>
    intro m h
    cases m with
    | zero =>
      simp only [chunkSizesAux, List.length_nil]
      exact (Nat.div_eq_of_lt (by omega)).symm
    | succ k =>
      show (chunkSizesAux f n (k + 1 - n)).length + 1 = (k + 1 + n - 1) / n
      rw [ih (k + 1 - n) (by omega)]
      rcases Nat.lt_or_ge k n with hk | hk
      · have h1 : k + 1 - n = 0 := by omega
        have h2 : k + 1 + n - 1 = k + n := by omega
        rw [h1, h2, Nat.div_eq_of_lt (show 0 + n - 1 < n by omega)]
        have : (k + n) / n = 1 := Nat.div_eq_of_lt_le (by omega) (by omega)
        omega
      · have h1 : k + 1 - n + n - 1 = k := by omega
        have h2 : k + 1 + n - 1 = k + n := by omega
        rw [h1, h2, Nat.add_div_right k hn]

/-- C1: reconciliation classifies an image of the registry inventory as
unused exactly when its full URI string is not a member of the usage set;
the membership test is propositional equality of Lean strings, that is,
exact byte-for-byte equality — no case folding and no tag/digest
normalization, so references differing in case or in form do not match. -/
theorem c1_unused_iff_exact (R : List image) (U : List String) (i : image) :
    i ∈ unusedImages R U ↔ i ∈ R ∧ i.URI ∉ U := by
  simp [unusedImages, List.mem_filter]

/-- C5: the batch deleter partitions a repository's tag list into
consecutive batches in input order: joining the batches gives back the tag
list (so every tag appears exactly once, in order), every batch has at most
100 tags, the number of batches is ceil(N/100), and a 250-tag list yields
exactly the batch sizes 100, 100, 50 in that order. -/
theorem c5_batch_partition (tags : List String) :
    (pager.Channel tags 100).flatten = tags ∧
    (∀ b ∈ pager.Channel tags 100, b.length ≤ 100) ∧
    (pager.Channel tags 100).length = (tags.length + 99) / 100 ∧
    (tags.length = 250 → (pager.Channel tags 100).map List.length = [100, 100, 50]) := by
  refine ⟨pager.ChannelAux_flatten 100 (by omega) _ _ le_rfl,
    fun b hb => pager.ChannelAux_mem_length 100 _ _ b hb, ?_, ?_⟩
  · have h := congrArg List.length
      (pager.ChannelAux_map_length 100 (by omega) tags.length tags le_rfl)
    rw [List.length_map] at h
    rw [pager.Channel, h, chunkSizesAux_length 100 (by omega) tags.length tags.length le_rfl]
    congr 1
  · intro h250
    have hmap := pager.ChannelAux_map_length 100 (by omega) 250 tags (by omega)
    rw [pager.Channel, h250, hmap, h250]
    decide

/-- A concrete 250-tag list for the batch-partition witness. -/
def tagsW250 : List String := (List.range 250).map (fun i => "t" ++ toString i)

/-- Witness for C5: on a concrete list of 250 tags the batches have sizes
100, 100, 50. -/
theorem c5_batch_partition_witness :
    (pager.Channel tagsW250 100).map List.length = [100, 100, 50] :=
  (c5_batch_partition tagsW250).2.2.2 (by rfl)

/-! ## Helper lemmas about the deletion phase -/

/-- Every `BatchDeleteImage` call the deletion phase will issue, derived
from the reconciliation result alone (it does not depend on the delete
oracle): per repository name in first-insertion order, the repository's
unused tags batched 100 at a time. -/
def plannedCalls (unused : List image) : List (String × List String) :=
  (repoNamesOf unused).flatMap
    (fun r => (pager.Channel ((unusedByRepo unused r).map (fun i => i.Tag)) 100).map
      (fun b => (r, b)))

/-- Unrolling the inner batch loop: every batch is issued in order, and the
`err` slot ends as the wrapped outcome of the batch loop's last iteration. -/
theorem deleteRepoBatches_eq (oracle : String → List String → Option String) (r : String) :
    ∀ (batches : List (List String)) (st : Option String × List (String × List String)),
      deleteRepoBatches oracle r batches st
        = (batches.foldl (fun e b => wrapDeleteErr (oracle r b)) st.1,
           st.2 ++ batches.map (fun b => (r, b))) := by
  intro batches
  induction batches with
  | nil => intro st; simp [deleteRepoBatches]
  | cons b bs ih =>
    intro st
    show deleteRepoBatches oracle r bs (wrapDeleteErr (oracle r b), st.2 ++ [(r, b)]) = _
    rw [ih]
    simp [List.append_assoc]

/-- Unrolling the whole deletion phase over any repository-name list: the
issued calls are the planned calls in order, and the `err` slot is the fold
of the overwriting assignment over them. -/
theorem deletePhaseAux_eq (oracle : String → List String → Option String)
    (unused : List image) :
    ∀ (names : List String) (st : Option String × List (String × List String)),
      names.foldl
        (fun st r =>
          let imgs := unusedByRepo unused r
          if imgs.isEmpty then st
          else deleteRepoBatches oracle r (pager.Channel (imgs.map (fun i => i.Tag)) 100) st)
        st
        = ((names.flatMap (fun r =>
              (pager.Channel ((unusedByRepo unused r).map (fun i => i.Tag)) 100).map
                (fun b => (r, b)))).foldl
            (fun e rb => wrapDeleteErr (oracle rb.1 rb.2)) st.1,
           st.2 ++ names.flatMap (fun r =>
              (pager.Channel ((unusedByRepo unused r).map (fun i => i.Tag)) 100).map
                (fun b => (r, b)))) := by
  intro names
  induction names with
  | nil => intro st; simp
  | cons r rest ih =>
    intro st
    rw [List.foldl_cons, ih, List.flatMap_cons]
    by_cases hemp : (unusedByRepo unused r).isEmpty
    · have hnil : unusedByRepo unused r = [] := List.isEmpty_iff.mp hemp
      simp [hnil, pager.Channel, pager.ChannelAux]
    · simp only [hemp, if_neg, Bool.false_eq_true, not_false_iff, ite_false]
      rw [deleteRepoBatches_eq]
      simp [List.foldl_append, List.foldl_map, List.append_assoc]

/-- The deletion phase issues exactly the planned calls, and its final `err`
is the overwriting fold over them starting from `nil`. -/
theorem deletePhase_eq (oracle : String → List String → Option String) (unused : List image) :
    deletePhase oracle unused
      = ((plannedCalls unused).foldl (fun e rb => wrapDeleteErr (oracle rb.1 rb.2)) none,
         plannedCalls unused) := by
  show (repoNamesOf unused).foldl _ (none, []) = _
  rw [deletePhaseAux_eq oracle unused (repoNamesOf unused) (none, [])]
  rfl

/-- A fold that ignores its accumulator keeps only the last element's value. -/
theorem foldl_overwrite {γ : Type} (f : γ → Option String) :
    ∀ (plan : List γ) (e0 : Option String),
      plan.foldl (fun e rb => f rb) e0
        = (match plan.getLast? with | none => e0 | some rb => f rb) := by
  intro plan
  induction plan with
  | nil => intro e0; rfl
  | cons rb rest ih =>
    intro e0
    rw [List.foldl_cons, ih (f rb)]
    cases rest with
    | nil => rfl
    | cons y ys =>
      rw [List.getLast?_cons_cons]
      cases h : (y :: ys).getLast? with
      | none => simp at h
      | some z => rfl

/-- C2 (amended): in non-dry-run mode every planned batch is attempted
regardless of delete failures — the issued calls equal the planned calls,
which do not depend on the oracle — but batch errors are not aggregated:
each batch overwrites the single `err` variable with its own wrapped
outcome, so the run's returned error is exactly the wrapped outcome of the
last executed batch (`none` when there is no batch, or when the last batch
succeeded even though an earlier one failed). -/
theorem c2_last_batch_error_only (A : List image) (E : List inUseImageECS)
    (L : List inUseImageLambda) (oracle : String → List String → Option String) :
    (run false (.ok A) (.ok E) (.ok L) oracle).deleteCalls
        = plannedCalls (unusedImages A (usageOf E L)) ∧
    (run false (.ok A) (.ok E) (.ok L) oracle).err
        = (plannedCalls (unusedImages A (usageOf E L))).getLast?.bind
            (fun rb => wrapDeleteErr (oracle rb.1 rb.2)) := by
  constructor
  · show (deletePhase oracle (unusedImages A (usageOf E L))).2 = _
    rw [deletePhase_eq]
  · show (deletePhase oracle (unusedImages A (usageOf E L))).1 = _
    rw [deletePhase_eq]
    show (plannedCalls _).foldl _ none = _
    rw [foldl_overwrite]
    cases (plannedCalls (unusedImages A (usageOf E L))).getLast? <;> rfl

/-- The repository of the concrete 250-tag counterexample. -/
def repoApp : repo := ⟨"registry.example/app", "app"⟩

/-- 250 images `t0 … t249` of one repository, none of them in use. -/
def images250 : List image :=
  (List.range 250).map
    (fun i => ⟨repoApp, "registry.example/app:t" ++ toString i, "t" ++ toString i⟩)

/-- A delete oracle that fails exactly the batch starting at tag `t100` —
the second of the three batches — and succeeds on every other batch. -/
def failSecondBatch : String → List String → Option String :=
  fun _ b => if b.head? == some "t100" then some "boom" else none

set_option maxRecDepth 8000 in
/-- C2 counterexample: with one repository of 250 unused tags the run
issues exactly 3 batches of sizes 100, 100, 50; the delete call for batch 2
fails ("boom") while batches 1 and 3 succeed; the claim says the returned
error reflects batch 2's failure, but the run returns `none`: batch 3's
success overwrote the wrapped error of batch 2. -/
theorem c2_counterexample :
    (run false (.ok images250) (.ok []) (.ok []) failSecondBatch).deleteCalls.map
        (fun c => (c.1, c.2.length)) = [("app", 100), ("app", 100), ("app", 50)] ∧
    (run false (.ok images250) (.ok []) (.ok []) failSecondBatch).deleteCalls.map
        (fun c => failSecondBatch c.1 c.2) = [none, some "boom", none] ∧
    (run false (.ok images250) (.ok []) (.ok []) failSecondBatch).err = none := by
  refine ⟨?_, ?_, ?_⟩ <;> rfl

/-- C3: the dry-run flag defaults to true; in dry-run mode the run issues
zero deletion calls, and the unused list it computes is identical to the
one a non-dry-run execution computes over the same registry inventory and
usage set, whatever either execution's delete oracle does — the flag does
not influence reconciliation. -/
theorem c3_dry_run_reconciliation (a : Except String (List image))
    (e : Except String (List inUseImageECS)) (l : Except String (List inUseImageLambda))
    (o o2 : String → List String → Option String) :
    flagDryRunDefault = true ∧
    (run true a e l o).deleteCalls = [] ∧
    (run true a e l o).unused = (run false a e l o2).unused := by
  refine ⟨rfl, ?_, ?_⟩ <;> (cases a <;> cases e <;> cases l <;> rfl)

/-- C4: when at least one collector fails, the run's error is the
combination of every failing collector's error (multierr joins the messages
with "; "), and the run stops before reconciliation: the unused list is
empty, no delete call is issued and no summary is produced — partial
collector success is not acted upon. -/
theorem c4_collector_errors_abort (d : Bool) (a : Except String (List image))
    (e : Except String (List inUseImageECS)) (l : Except String (List inUseImageLambda))
    (oracle : String → List String → Option String) (h : errorsOf a e l ≠ []) :
    (run d a e l oracle).err = some (String.intercalate "; " (errorsOf a e l)) ∧
    (run d a e l oracle).unused = [] ∧
    (run d a e l oracle).deleteCalls = [] ∧
    (run d a e l oracle).summary = none := by
  cases a with
  | error m => cases e <;> cases l <;> exact ⟨rfl, rfl, rfl, rfl⟩
  | ok A =>
    cases e with
    | error m => cases l <;> exact ⟨rfl, rfl, rfl, rfl⟩
    | ok E =>
      cases l with
      | error m => exact ⟨rfl, rfl, rfl, rfl⟩
      | ok L => exact absurd rfl h

/-- Witness for C4: a concrete run whose registry collector fails with "x"
while the other two collectors succeed returns the combined error and does
nothing else, in dry-run and in non-dry-run mode alike. -/
theorem c4_collector_errors_abort_witness :
    (run false (.error "x") (.ok []) (.ok []) (fun _ _ => none)).err
        = some (String.intercalate "; " (errorsOf (.error "x") (.ok []) (.ok []))) ∧
    (run false (.error "x") (.ok []) (.ok []) (fun _ _ => none)).unused = [] ∧
    (run false (.error "x") (.ok []) (.ok []) (fun _ _ => none)).deleteCalls = [] ∧
    (run false (.error "x") (.ok []) (.ok []) (fun _ _ => none)).summary = none :=
  c4_collector_errors_abort false (.error "x") (.ok []) (.ok []) (fun _ _ => none)
    (by decide)

/-- A name reached by folding `insertName` over the unused list is the
repository name of some unused image (or was already in the accumulator). -/
theorem foldl_insertName_mem :
    ∀ (u : List image) (acc : List String) (r : String),
      r ∈ u.foldl (fun a i => insertName a i.Repo.Name) acc →
      r ∈ acc ∨ ∃ img ∈ u, img.Repo.Name = r := by
  intro u
  induction u with
  | nil => intro acc r h; exact Or.inl h
  | cons i u ih =>
    intro acc r h
    rw [List.foldl_cons] at h
    rcases ih _ r h with hacc | ⟨img, hmem, hname⟩
    · unfold insertName at hacc
      by_cases hc : acc.contains i.Repo.Name
      · rw [if_pos hc] at hacc
        exact Or.inl hacc
      · rw [if_neg hc] at hacc
        rcases List.mem_append.mp hacc with h1 | h2
        · exact Or.inl h1
        · simp only [List.mem_singleton] at h2
          exact Or.inr ⟨i, List.mem_cons_self i u, h2.symm⟩
    · exact Or.inr ⟨img, List.mem_cons_of_mem _ hmem, hname⟩

/-- Every key of the repository-name set comes from an unused image. -/
theorem mem_repoNamesOf (u : List image) (r : String) (h : r ∈ repoNamesOf u) :
    ∃ img ∈ u, img.Repo.Name = r := by
  rcases foldl_insertName_mem u [] r h with h0 | h1
  · simp at h0
  · exact h1

/-- An element of a page of `pager.Channel` is an element of the input. -/
theorem mem_of_mem_channel {α : Type} (n : Nat) (hn : 0 < n) (l b : List α)
    (hb : b ∈ pager.Channel l n) {t : α} (ht : t ∈ b) : t ∈ l := by
  have hfl := pager.ChannelAux_flatten n hn l.length l le_rfl
  rw [← hfl]
  exact List.mem_flatten.mpr ⟨b, hb, ht⟩

/-- C9: the program never attempts to delete an in-use image — every tag of
every issued `BatchDeleteImage` call belongs to an image of that call's
repository whose full URI is absent from the usage set at reconciliation
time — and every repository name in the unused grouping maps to a non-empty
list, so no delete call is ever issued for a repository with zero unused
tags. -/
theorem c9_no_inuse_deleted (A : List image) (E : List inUseImageECS)
    (L : List inUseImageLambda) (oracle : String → List String → Option String) :
    (∀ rb ∈ (run false (.ok A) (.ok E) (.ok L) oracle).deleteCalls, ∀ t ∈ rb.2,
        ∃ img, img ∈ A ∧ img.Repo.Name = rb.1 ∧ img.Tag = t ∧ img.URI ∉ usageOf E L) ∧
    (∀ r ∈ repoNamesOf (unusedImages A (usageOf E L)),
        unusedByRepo (unusedImages A (usageOf E L)) r ≠ []) := by
  constructor
  · intro rb hrb t ht
    have hcalls : (run false (.ok A) (.ok E) (.ok L) oracle).deleteCalls
        = plannedCalls (unusedImages A (usageOf E L)) := by
      show (deletePhase oracle (unusedImages A (usageOf E L))).2 = _
      rw [deletePhase_eq]
    rw [hcalls, plannedCalls] at hrb
    rcases List.mem_flatMap.mp hrb with ⟨r, hr, hmap⟩
    rcases List.mem_map.mp hmap with ⟨b, hbchan, hrb_eq⟩
    subst hrb_eq
    have htags : t ∈ (unusedByRepo (unusedImages A (usageOf E L)) r).map (fun i => i.Tag) :=
      mem_of_mem_channel 100 (by omega) _ b hbchan ht
    rcases List.mem_map.mp htags with ⟨img, himg, htag⟩
    have h1 := List.mem_filter.mp himg
    have h2 := List.mem_filter.mp h1.1
    refine ⟨img, h2.1, ?_, htag, ?_⟩
    · exact beq_iff_eq.mp h1.2
    · have := h2.2
      simp only [Bool.not_eq_eq_eq_not, Bool.not_true] at this
      intro hmem
      rw [List.contains_eq_any_beq] at this
      simp [List.any_eq_true] at this
      exact this img.URI hmem rfl
  · intro r hr
    rcases mem_repoNamesOf _ r hr with ⟨img, himg, hname⟩
    have : img ∈ unusedByRepo (unusedImages A (usageOf E L)) r :=
      List.mem_filter.mpr ⟨himg, by simp [hname]⟩
    exact List.ne_nil_of_mem this

/-- The repository of the small non-dry-run witness scenario. -/
def repoW : repo := ⟨"u", "r"⟩

/-- Two images of repository "r": `u:a` (in use) and `u:b` (unused). -/
def imagesW : List image := [⟨repoW, "u:a", "a"⟩, ⟨repoW, "u:b", "b"⟩]

/-- An ECS usage set holding exactly `u:a`. -/
def ecsW : List inUseImageECS := [⟨"c", "u:a"⟩]

/-- Witness for C9: in the concrete scenario the unused grouping's one key
"r" maps to a non-empty list. -/
theorem c9_no_inuse_deleted_witness :
    unusedByRepo (unusedImages imagesW (usageOf ecsW [])) "r" ≠ [] :=
  (c9_no_inuse_deleted imagesW ecsW [] (fun _ _ => none)).2 "r" (by decide)

/-- C10: in non-dry-run mode the final summary line always reports the
total number of images classified unused during reconciliation, for every
delete oracle — a failing delete batch does not reduce the printed count. -/
theorem c10_summary_reports_total (A : List image) (E : List inUseImageECS)
    (L : List inUseImageLambda) (oracle : String → List String → Option String) :
    (run false (.ok A) (.ok E) (.ok L) oracle).summary
      = some ("Deleted " ++ toString (unusedImages A (usageOf E L)).length
          ++ " unused images.") := rfl

/-! ## Helper lemmas about the paginated fetch and the collectors -/

/-- When every page fetch succeeds, the paginated fetcher returns the
accumulator followed by every page's extracted records in page order. -/
theorem fetchPagesAux_ok {β α : Type} (wrap : String) (extract : β → List α) :
    ∀ (pages : List (Except String β)) (acc : List α),
      (∀ p ∈ pages, p.isOk = true) →
      fetchPagesAux wrap extract pages acc
        = .ok (acc ++ pages.flatMap (pageContent extract)) := by
  intro pages
  induction pages with
  | nil => intro acc h; simp [fetchPagesAux]
  | cons p ps ih =>
    intro acc h
    cases p with
    | error e =>
      have hh := h (Except.error e) (List.mem_cons_self _ _)
      simp [Except.isOk, Except.toBool] at hh
    | ok v =>
      show fetchPagesAux wrap extract ps (acc ++ extract v) = _
      rw [ih _ (fun q hq => h q (List.mem_cons_of_mem _ hq))]
      simp [pageContent, List.flatMap_cons, List.append_assoc]

/-- Filtering per page and then joining equals joining and then filtering. -/
theorem flatMap_pageContent_filterMap {α γ : Type} (f : α → Option γ) :
    ∀ (pages : List (Except String (List α))),
      pages.flatMap (pageContent (fun ids => ids.filterMap f))
        = (pages.flatMap (pageContent id)).filterMap f := by
  intro pages
  induction pages with
  | nil => rfl
  | cons p ps ih =>
    cases p with
    | error e => simpa [pageContent] using ih
    | ok v => simp [pageContent, List.filterMap_append, ih]

/-- Unrolling the repository loop of `getAllImages` when every tag-listing
page of every repository succeeds. -/
theorem getAllImagesAux_ok :
    ∀ (rs : List (repo × List (Except String (List (Option String))))) (acc : List image),
      (∀ rp ∈ rs, ∀ p ∈ rp.2, p.isOk = true) →
      getAllImagesAux rs acc
        = .ok (acc ++ rs.flatMap (fun rp =>
            ((rp.2.flatMap (pageContent id)).filterMap id).map (mkImage rp.1))) := by
  intro rs
  induction rs with
  | nil => intro acc h; simp [getAllImagesAux]
  | cons rp rest ih =>
    intro acc h
    have hpages : getRepositoryImages rp.2
        = .ok ((rp.2.flatMap (pageContent id)).filterMap id) := by
      rw [getRepositoryImages,
        fetchPagesAux_ok _ _ rp.2 [] (h rp (List.mem_cons_self _ _)),
        flatMap_pageContent_filterMap]
      simp
    show (match getRepositoryImages rp.2 with
      | Except.error e =>
        Except.error ("failed to describe repositories: " ++ e)
      | Except.ok tags => getAllImagesAux rest (acc ++ tags.map (mkImage rp.1))) = _
    rw [hpages]
    show getAllImagesAux rest (acc ++ _) = _
    rw [ih _ (fun q hq p hp => h q (List.mem_cons_of_mem _ hq) p hp)]
    simp [List.flatMap_cons, List.append_assoc]

/-- C6: when every page fetch succeeds, the registry inventory collector
produces exactly one Image per tagged image identifier — identifiers
without a tag are filtered out — with URI equal to the repository URI, a
colon, and the tag, ordered by repository listing order and then by tag
listing order within each repository. -/
theorem c6_registry_inventory (rs : List (repo × List (Except String (List (Option String)))))
    (h : ∀ rp ∈ rs, ∀ p ∈ rp.2, p.isOk = true) :
    getAllImages rs = .ok (rs.flatMap (fun rp =>
      ((rp.2.flatMap (pageContent id)).filterMap id).map (mkImage rp.1))) := by
  rw [getAllImages, getAllImagesAux_ok rs [] h]
  simp

/-- A concrete one-repository registry for the C6 witness: one page holding
a tagged identifier "a" and a tag-less identifier, then a page holding "b". -/
def rsW : List (repo × List (Except String (List (Option String)))) :=
  [(⟨"reg/app", "app"⟩, [Except.ok [some "a", none], Except.ok [some "b"]])]

/-- Witness for C6: the concrete registry yields exactly the two tagged
images with concatenated URIs, in listing order; the tag-less identifier is
dropped. -/
theorem c6_registry_inventory_witness :
    getAllImages rsW
      = Except.ok [⟨⟨"reg/app", "app"⟩, "reg/app:a", "a"⟩,
          ⟨⟨"reg/app", "app"⟩, "reg/app:b", "b"⟩] := by
  have h := c6_registry_inventory rsW (by decide)
  exact h

/-- C7 evaluation: a failing page while listing a repository's image tags
is wrapped as "failed to list tasks" (not image tags), and a failing page
while listing a cluster's services is wrapped as "failed to list clusters"
(not services) — the fixed wrap messages of `getRepositoryImages` and
`getClusterServices` name the wrong resource kind. -/
theorem c7_wrap_names_wrong_resource :
    getRepositoryImages [Except.ok [some "a", none], Except.error "boom"]
        = Except.error "failed to list tasks: boom" ∧
    getClusterServices [Except.error "boom"]
        = Except.error "failed to list clusters: boom" := ⟨rfl, rfl⟩

/-- Unrolling the function loop when every "Image"-typed function's detail
fetch succeeds: the result keeps exactly the "Image"-typed functions, in
order, and `GetFunction` was called exactly for them. -/
theorem processFunctions_ok (gf : String → Except String String) :
    ∀ (funcs : List lambdaFunction) (acc : List inUseImageLambda) (calls : List String),
      (∀ f ∈ funcs, f.PackageType = "Image" → (gf f.FunctionName).isOk = true) →
      processFunctions gf funcs acc calls
        = (.ok (acc ++ (funcs.filter (fun f => f.PackageType == "Image")).map
              (fun f => ⟨f.FunctionName, (gf f.FunctionName).toOption.getD ""⟩)),
           calls ++ (funcs.filter (fun f => f.PackageType == "Image")).map
              (fun f => f.FunctionName)) := by
  intro funcs
  induction funcs with
  | nil => intro acc calls h; simp [processFunctions]
  | cons f fs ih =>
    intro acc calls h
    by_cases hpt : f.PackageType = "Image"
    · have hok := h f (List.mem_cons_self _ _) hpt
      cases hgf : gf f.FunctionName with
      | error e => rw [hgf] at hok; simp [Except.isOk, Except.toBool] at hok
      | ok uri =>
        show (if f.PackageType == "Image" then _ else _) = _
        rw [if_pos (beq_iff_eq.mpr hpt), hgf]
        show processFunctions gf fs (acc ++ [⟨f.FunctionName, uri⟩])
            (calls ++ [f.FunctionName]) = _
        rw [ih _ _ (fun q hq hq2 => h q (List.mem_cons_of_mem _ hq) hq2)]
        simp [List.filter_cons, beq_iff_eq.mpr hpt, hgf, Except.toOption,
          List.append_assoc]
    · show (if f.PackageType == "Image" then _ else _) = _
      rw [if_neg (fun hc => hpt (beq_iff_eq.mp hc))]
      rw [ih _ _ (fun q hq hq2 => h q (List.mem_cons_of_mem _ hq) hq2)]
      have hfil : (f.PackageType == "Image") = false := by
        simp [hpt]
      simp [List.filter_cons, hfil]

/-- Every name `GetFunction` is called with belongs to an "Image"-typed
function of the listing (or was already recorded). -/
theorem processFunctions_calls (gf : String → Except String String) :
    ∀ (funcs : List lambdaFunction) (acc : List inUseImageLambda) (calls : List String)
      (c : String), c ∈ (processFunctions gf funcs acc calls).2 →
      c ∈ calls ∨ ∃ f ∈ funcs, f.PackageType = "Image" ∧ c = f.FunctionName := by
  intro funcs
  induction funcs with
  | nil => intro acc calls c hc; exact Or.inl hc
  | cons f fs ih =>
    intro acc calls c hc
    by_cases hpt : f.PackageType = "Image"
    · rw [show processFunctions gf (f :: fs) acc calls
          = (if f.PackageType == "Image" then
              match gf f.FunctionName with
              | .error e =>
                (.error ("failed to get function \"" ++ f.FunctionName ++ "\": " ++ e),
                  calls ++ [f.FunctionName])
              | .ok uri =>
                processFunctions gf fs (acc ++ [⟨f.FunctionName, uri⟩])
                  (calls ++ [f.FunctionName])
            else processFunctions gf fs acc calls) from rfl,
        if_pos (beq_iff_eq.mpr hpt)] at hc
      cases hgf : gf f.FunctionName with
      | error e =>
        rw [hgf] at hc
        rcases List.mem_append.mp hc with h1 | h2
        · exact Or.inl h1
        · simp only [List.mem_singleton] at h2
          exact Or.inr ⟨f, List.mem_cons_self _ _, hpt, h2⟩
      | ok uri =>
        rw [hgf] at hc
        rcases ih _ _ c hc with h1 | ⟨g, hg, hgt, hcg⟩
        · rcases List.mem_append.mp h1 with ha | hb
          · exact Or.inl ha
          · simp only [List.mem_singleton] at hb
            exact Or.inr ⟨f, List.mem_cons_self _ _, hpt, hb⟩
        · exact Or.inr ⟨g, List.mem_cons_of_mem _ hg, hgt, hcg⟩
    · rw [show processFunctions gf (f :: fs) acc calls
          = (if f.PackageType == "Image" then
              match gf f.FunctionName with
              | .error e =>
                (.error ("failed to get function \"" ++ f.FunctionName ++ "\": " ++ e),
                  calls ++ [f.FunctionName])
              | .ok uri =>
                processFunctions gf fs (acc ++ [⟨f.FunctionName, uri⟩])
                  (calls ++ [f.FunctionName])
            else processFunctions gf fs acc calls) from rfl,
        if_neg (fun hc2 => hpt (beq_iff_eq.mp hc2))] at hc
      rcases ih _ _ c hc with h1 | ⟨g, hg, hgt, hcg⟩
      · exact Or.inl h1
      · exact Or.inr ⟨g, List.mem_cons_of_mem _ hg, hgt, hcg⟩

/-- Unrolling the function loop up to the first "Image"-typed function
whose detail fetch fails: the loop aborts there with the source's wrapped
message, having called `GetFunction` for the preceding "Image"-typed
functions and for the failing one, and for nothing after it. -/
theorem processFunctions_err (gf : String → Except String String) :
    ∀ (pre : List lambdaFunction) (f0 : lambdaFunction) (post : List lambdaFunction)
      (e : String) (acc : List inUseImageLambda) (calls : List String),
      (∀ f ∈ pre, f.PackageType = "Image" → (gf f.FunctionName).isOk = true) →
      f0.PackageType = "Image" → gf f0.FunctionName = .error e →
      processFunctions gf (pre ++ f0 :: post) acc calls
        = (.error ("failed to get function \"" ++ f0.FunctionName ++ "\": " ++ e),
           calls ++ (pre.filter (fun f => f.PackageType == "Image")).map
              (fun f => f.FunctionName) ++ [f0.FunctionName]) := by
  intro pre
  induction pre with
  | nil =>
    intro f0 post e acc calls hpre h0 hgf
    show (if f0.PackageType == "Image" then _ else _) = _
    rw [if_pos (beq_iff_eq.mpr h0), hgf]
    simp
  | cons f pre ih =>
    intro f0 post e acc calls hpre h0 hgf
    by_cases hpt : f.PackageType = "Image"
    · have hok := hpre f (List.mem_cons_self _ _) hpt
      cases hgf2 : gf f.FunctionName with
      | error e2 => rw [hgf2] at hok; simp [Except.isOk, Except.toBool] at hok
      | ok uri =>
        show (if f.PackageType == "Image" then _ else _) = _
        rw [if_pos (beq_iff_eq.mpr hpt), hgf2]
        show processFunctions gf (pre ++ f0 :: post) (acc ++ [⟨f.FunctionName, uri⟩])
            (calls ++ [f.FunctionName]) = _
        rw [ih f0 post e _ _ (fun q hq hq2 => hpre q (List.mem_cons_of_mem _ hq) hq2) h0 hgf]
        simp [List.filter_cons, beq_iff_eq.mpr hpt, List.append_assoc]
    · show (if f.PackageType == "Image" then _ else _) = _
      rw [if_neg (fun hc => hpt (beq_iff_eq.mp hc))]
      show processFunctions gf (pre ++ f0 :: post) acc calls = _
      rw [ih f0 post e _ _ (fun q hq hq2 => hpre q (List.mem_cons_of_mem _ hq) hq2) h0 hgf]
      have hfil : (f.PackageType == "Image") = false := by
        simp [hpt]
      simp [List.filter_cons, hfil]

/-- Over a single successfully fetched listing page, the collector is the
function loop itself. -/
theorem getInUseImagesLambda_one_page (gf : String → Except String String)
    (funcs : List lambdaFunction) :
    getInUseImagesLambda gf [Except.ok funcs] = processFunctions gf funcs [] [] := by
  show getInUseImagesLambdaAux gf [Except.ok funcs] [] [] = _
  rcases hp : processFunctions gf funcs [] [] with ⟨res, calls⟩
  cases res with
  | ok a => simp [getInUseImagesLambdaAux, hp]
  | error m => simp [getInUseImagesLambdaAux, hp]

/-- C8 (amended): the function usage collector calls `GetFunction` only for
functions whose deployment package type is "Image" — all other functions
are skipped without a detail fetch — and a detail-fetch failure aborts the
whole collector with the error wrapped exactly as the source writes it,
`failed to get function "<name>": <cause>` (Go's `%q` quoting of the name),
after having fetched only the preceding "Image"-typed functions. -/
theorem c8_lambda_collector (funcs : List lambdaFunction)
    (gf : String → Except String String) :
    (∀ c ∈ (getInUseImagesLambda gf [Except.ok funcs]).2,
        ∃ f ∈ funcs, f.PackageType = "Image" ∧ c = f.FunctionName) ∧
    ((∀ f ∈ funcs, f.PackageType = "Image" → (gf f.FunctionName).isOk = true) →
        getInUseImagesLambda gf [Except.ok funcs]
          = (.ok ((funcs.filter (fun f => f.PackageType == "Image")).map
                (fun f => ⟨f.FunctionName, (gf f.FunctionName).toOption.getD ""⟩)),
             (funcs.filter (fun f => f.PackageType == "Image")).map
                (fun f => f.FunctionName))) ∧
    (∀ (pre : List lambdaFunction) (f0 : lambdaFunction) (post : List lambdaFunction)
        (e : String),
        funcs = pre ++ f0 :: post →
        (∀ f ∈ pre, f.PackageType = "Image" → (gf f.FunctionName).isOk = true) →
        f0.PackageType = "Image" → gf f0.FunctionName = .error e →
        getInUseImagesLambda gf [Except.ok funcs]
          = (.error ("failed to get function \"" ++ f0.FunctionName ++ "\": " ++ e),
             (pre.filter (fun f => f.PackageType == "Image")).map
                (fun f => f.FunctionName) ++ [f0.FunctionName])) := by
  refine ⟨?_, ?_, ?_⟩
  · intro c hc
    rw [getInUseImagesLambda_one_page] at hc
    rcases processFunctions_calls gf funcs [] [] c hc with h0 | h1
    · simp at h0
    · exact h1
  · intro h
    rw [getInUseImagesLambda_one_page, processFunctions_ok gf funcs [] [] h]
    simp
  · intro pre f0 post e hsplit hpre h0 hgf
    subst hsplit
    rw [getInUseImagesLambda_one_page,
      processFunctions_err gf pre f0 post e [] [] hpre h0 hgf]
    simp

/-- Witness for C8: a listing with a "Zip"-packaged function "g" followed by
an "Image"-packaged function "f" whose detail fetch fails with "boom": the
collector aborts with the source's wrapped message, and `GetFunction` was
called for "f" only — "g" was skipped without a fetch. -/
theorem c8_lambda_collector_witness :
    getInUseImagesLambda (fun _ => Except.error "boom")
        [Except.ok [⟨"g", "Zip"⟩, ⟨"f", "Image"⟩]]
      = (.error "failed to get function \"f\": boom", ["f"]) := by
  have h := (c8_lambda_collector [⟨"g", "Zip"⟩, ⟨"f", "Image"⟩]
      (fun _ => Except.error "boom")).2.2 [⟨"g", "Zip"⟩] ⟨"f", "Image"⟩ [] "boom" rfl
      (by
        intro f hf him
        simp only [List.mem_singleton] at hf
        rw [hf] at him
        exact absurd him (by decide))
      rfl rfl
  exact h

/-- C8 counterexample: for an "Image"-packaged function "f" whose detail
fetch fails with "boom", the collector's error message is the source's
`failed to get function "f": boom`, which is not of the claimed form
"failed to get function details for <name>". -/
theorem c8_counterexample :
    (getInUseImagesLambda (fun _ => Except.error "boom")
        [Except.ok [⟨"f", "Image"⟩]]).1
      = Except.error "failed to get function \"f\": boom" ∧
    "failed to get function \"f\": boom" ≠ "failed to get function details for f: boom" ∧
    "failed to get function \"f\": boom" ≠ "failed to get function details for f" :=
  ⟨rfl, by decide, by decide⟩
